import Mathlib

/-!
Verification of the PiGoSAT facade (Go bindings for the PicoSAT solver).

The development shallowly embeds the facade layer of the library: the
`Pigosat` session object, its solve-state mirror of the engine, the
`couldHaveFailedAssumptions` flag, formula ingestion (`AddClauses`),
solving (`Solve`), solution blocking (`blocksol` / `BlockSolution`),
assumption queries (`Assume`, `FailedAssumption`, `FailedAssumptions`,
`litArrayToSlice`), the report writers (`WriteClausalCore`,
`WriteCompactTrace`, `WriteExtendedTrace`), and the `Minimize` bisection
utility.

The external PicoSAT engine is a black box; we model exactly the
engine-visible behavior the facade depends on:
  * `picosat_add` / `picosat_add_lits` append clauses (the engine reads a
    literal array up to and including its first 0 terminator);
  * `picosat_variables` reports a variable count (max absolute literal);
  * `picosat_added_original_clauses` counts the completed clauses;
  * `picosat_res` reports the last `picosat_sat` result and keeps
    reporting it across intervening `picosat_assume` calls (documented by
    TestAssumptionsNoCrash in assume_test.go, which asserts
    `p.Res() == Unsatisfiable` after an `Assume` following an
    unsatisfiable solve);
  * `picosat_sat` and `picosat_deref` results are inputs (parameters) to
    the functions that call them.

Go panics are modelled with `Option` (`none` = panic); errors with
`Except String`.  Where a claim is about whether an engine query is
reached, the modelled method also returns the engine calls it makes
(a `List CCall` trace, or a `Bool` flag for a single potential query).
-/

namespace PiGoSAT

/-- Status values, from picosat.h: PICOSAT_UNKNOWN = 0,
PICOSAT_SATISFIABLE = 10, PICOSAT_UNSATISFIABLE = 20.  The Go `Status`
type is an `int`. -/
def Unknown : Int := 0

/-- The formula is satisfiable (PICOSAT_SATISFIABLE = 10). -/
def Satisfiable : Int := 10

/-- The formula cannot be satisfied (PICOSAT_UNSATISFIABLE = 20). -/
def Unsatisfiable : Int := 20

/-- Largest variable index occurring in a clause (`picosat` tracks the
maximum absolute value of imported literals as its variable count). -/
def clauseMaxVar (c : List Int) : Nat :=
  c.foldl (fun m l => max m l.natAbs) 0

/-- The engine-visible state of a PicoSAT instance, as far as the facade
observes it: the variable count (`picosat_variables`), the completed
original clauses (`picosat_added_original_clauses` is their number), and
the result of the last `picosat_sat` call (`picosat_res`; `Unknown` = 0
before the first solve).  The engine's open-clause buffer is always
empty at the facade's call boundaries (every facade call ends each
clause with a terminator), so it is not represented. -/
structure PicoState where
  vars : Nat
  clauses : List (List Int)
  res : Int
deriving DecidableEq, Repr

/-- Effect of `picosat_add(p, 0)`: completes the (empty) current clause. -/
def PicoState.engineAdd0 (s : PicoState) : PicoState :=
  { s with clauses := s.clauses ++ [[]] }

/-- Effect of `picosat_add_lits(p, arr)`: the engine reads literals from
`arr` up to the first 0 terminator, adding them as one clause. -/
def PicoState.engineAddLits (s : PicoState) (arr : List Int) : PicoState :=
  let c := arr.takeWhile (fun l => l != 0)
  { s with clauses := s.clauses ++ [c], vars := max s.vars (clauseMaxVar c) }

/-- The facade's session object (struct `Pigosat` in pigosat.go): the
engine handle plus the `couldHaveFailedAssumptions` flag.  The `lock`
field (a `sync.RWMutex`) has no sequential meaning and is omitted.

`traceEnabled` records whether the session was created with the
`EnableTrace` option (`New` calls `picosat_enable_trace_generation`);
it is engine/creation state, carried here because the specification of
the write methods refers to it.

`validWindow` is specification-level bookkeeping, not a field of the Go
struct: it is the spec's "assumption-validity" window, true exactly
between a `Solve` that returned `Unsatisfiable` and the next
`AddClauses`/`Assume`/`Solve`/blocking-clause call.  Each modelled
operation updates it per that definition, so theorems can compare the
code's behavior against the spec's window. -/
structure Pigosat where
  engine : PicoState
  couldHaveFailedAssumptions : Bool
  traceEnabled : Bool
  validWindow : Bool
deriving DecidableEq, Repr

/-- A fresh session as produced by `New` (engine initialized empty;
`trace` says whether `Options.EnableTrace` was set). -/
def init (trace : Bool) : Pigosat :=
  { engine := { vars := 0, clauses := [], res := Unknown }
    couldHaveFailedAssumptions := false
    traceEnabled := trace
    validWindow := false }

/-- `Pigosat.Variables`: the number of variables in the formula. -/
def Variables (p : Pigosat) : Nat := p.engine.vars

/-- `Pigosat.AddedOriginalClauses`: the number of clauses in the formula. -/
def AddedOriginalClauses (p : Pigosat) : Nat := p.engine.clauses.length

/-- Calls the facade makes into the C engine (only those the claims
reason about). -/
inductive CCall where
  | add (lit : Int)
  | addLits (arr : List Int)
deriving DecidableEq, Repr

/-- The loop body of `Pigosat.AddClauses` (pigosat.go): for each clause,
clear `couldHaveFailedAssumptions`; an empty clause forwards a single
`picosat_add(p, 0)`; a non-empty clause has a 0 appended when its last
element is not already 0 and is forwarded via `picosat_add_lits`.
Returns the new session and the engine calls made, in order. -/
def addClausesLoop (p : Pigosat) : List (List Int) → Pigosat × List CCall
  | [] => (p, [])
  | c :: rest =>
    let p1 : Pigosat :=
      { p with couldHaveFailedAssumptions := false, validWindow := false }
    if c.length = 0 then
      let p2 := { p1 with engine := p1.engine.engineAdd0 }
      let r := addClausesLoop p2 rest
      (r.1, CCall.add 0 :: r.2)
    else
      let arr := if c.getLastD 0 != 0 then c ++ [0] else c
      let p2 := { p1 with engine := p1.engine.engineAddLits arr }
      let r := addClausesLoop p2 rest
      (r.1, CCall.addLits arr :: r.2)

/-- `Pigosat.AddClauses`: add a formula (a list of clauses) to the
session.  Total on live sessions (no failure path besides the
session-state guard, which is outside the model of live sessions). -/
def AddClauses (p : Pigosat) (clauses : List (List Int)) :
    Pigosat × List CCall :=
  addClausesLoop p clauses

/-- Truth of a single literal under an assignment of variables to
Booleans (positive literal `l` is true when variable `l` is true). -/
def litSat (σ : Nat → Bool) (l : Int) : Bool :=
  if 0 < l then σ l.natAbs else !(σ l.natAbs)

/-- A clause (a disjunction) is satisfied when some literal is true. -/
def clauseSat (σ : Nat → Bool) (c : List Int) : Bool :=
  c.any (litSat σ)

/-- A formula (a conjunction of clauses) is satisfied when every clause
is. -/
def formulaSat (σ : Nat → Bool) (f : List (List Int)) : Bool :=
  f.all (clauseSat σ)

/-- The deref loop inside `Pigosat.Solve`: for `k` successive variables
starting at index `i`, read `picosat_deref` (the parameter `d`); a
positive value records `true`, a negative value records `false`, and a
0 value panics (`none`) — "Variable i was assigned value 0". -/
def derefVals (d : Int → Int) (i : Nat) : Nat → Option (List Bool)
  | 0 => some []
  | k + 1 =>
    if 0 < d i then (derefVals d (i + 1) k).map (fun bs => true :: bs)
    else if d i = 0 then none
    else (derefVals d (i + 1) k).map (fun bs => false :: bs)

/-- The solution assembled by `Pigosat.Solve` on a satisfiable result:
`make(Solution, n+1)` leaves index 0 at `false`; indices 1..n are set
from `picosat_deref`. -/
def buildSolution (d : Int → Int) (n : Nat) : Option (List Bool) :=
  (derefVals d 1 n).map (fun bs => false :: bs)

/-- `Pigosat.Solve` (pigosat.go): clear `couldHaveFailedAssumptions`,
call `picosat_sat` (its result is the parameter `satRes`; the engine
records it as `picosat_res`).  On `Unsatisfiable`, set the flag and
return no solution; on `Unknown`, return no solution; on any other
non-`Satisfiable` value, panic; on `Satisfiable`, read back all `n`
variables via `picosat_deref` (the parameter `d`).  Solving closes the
spec's assumption-validity window, except that an `Unsatisfiable`
result opens a new one. -/
def Solve (p : Pigosat) (satRes : Int) (d : Int → Int) :
    Option (Pigosat × Int × Option (List Bool)) :=
  let p1 : Pigosat :=
    { p with couldHaveFailedAssumptions := false, validWindow := false,
             engine := { p.engine with res := satRes } }
  if satRes = Unsatisfiable then
    some ({ p1 with couldHaveFailedAssumptions := true, validWindow := true },
          satRes, none)
  else if satRes = Unknown then
    some (p1, satRes, none)
  else if satRes ≠ Satisfiable then
    none
  else
    match buildSolution d p.engine.vars with
    | none => none
    | some sol => some (p1, satRes, some sol)

/-- `Pigosat.Assume` (assume.go): forwards the literal to
`picosat_assume`.  The Go method does not touch
`couldHaveFailedAssumptions`; per the spec, an `Assume` call closes the
assumption-validity window (`validWindow`).  The engine keeps reporting
the previous solve result through `picosat_res` (TestAssumptionsNoCrash
asserts this). -/
def Assume (p : Pigosat) (lit : Int) : Pigosat × Int :=
  ({ p with validWindow := false }, lit)

/-- `Pigosat.FailedAssumption` (assume.go): returns `false` when
`p.res() != Unsatisfiable || lit == 0`; otherwise forwards to
`picosat_failed_assumption` (whose answer is the parameter
`engineFailed`).  The second component records whether the engine query
was invoked. -/
def FailedAssumption (p : Pigosat) (engineFailed : Int → Bool) (lit : Int) :
    Bool × Bool :=
  if p.engine.res ≠ Unsatisfiable ∨ lit = 0 then (false, false)
  else (engineFailed lit, true)

/-- The loop of `litArrayToSlice` (assume.go): at read index `i` (with
`i` literals collected so far in `acc`), stop on a 0 entry; panic
("Array not zero-terminated") when a nonzero entry is found with more
than `maxLen` literals already collected; otherwise collect and
advance. -/
def litLoop (mem : Nat → Int) (maxLen : Nat) (i : Nat) (acc : List Int) :
    Option (List Int) :=
  if mem i = 0 then some acc
  else if i > maxLen then none
  else litLoop mem maxLen (i + 1) (acc ++ [mem i])
termination_by maxLen + 1 - i
decreasing_by omega

/-- `litArrayToSlice` (assume.go): convert a 0-terminated C int array
(modelled as the memory contents `mem` at the pointer, or `none` for a
NULL pointer) into a list of literals; panics (`none`) on a NULL
pointer or when no terminator is found within the defensive bound. -/
def litArrayToSlice (ptr : Option (Nat → Int)) (maxLen : Nat) :
    Option (List Int) :=
  match ptr with
  | none => none
  | some mem => litLoop mem maxLen 0 []

/-- `Pigosat.FailedAssumptions` (assume.go): returns the empty list when
`p.res() != Unsatisfiable`; otherwise reads the engine's
`picosat_failed_assumptions` buffer (the parameter `buf`) through
`litArrayToSlice` bounded by the variable count.  The `Bool` records
whether the engine query was invoked; the result is `none` when
`litArrayToSlice` panics. -/
def FailedAssumptions (p : Pigosat) (buf : Option (Nat → Int)) :
    Option (List Int) × Bool :=
  if p.engine.res ≠ Unsatisfiable then (some [], false)
  else (litArrayToSlice buf p.engine.vars, true)

/-- `Pigosat.WriteClausalCore` (pigosat.go): error unless
`picosat_res` is `Unsatisfiable`; otherwise hands the engine's
`picosat_write_clausal_core` output to the writer.  No check of the
`EnableTrace` creation option is performed.  The `Bool` records whether
the engine's write operation was invoked. -/
def WriteClausalCore (p : Pigosat) : Except String Unit × Bool :=
  if p.engine.res ≠ Unsatisfiable then
    (Except.error "expected to be in Unsatisfiable state", false)
  else (Except.ok (), true)

/-- `Pigosat.WriteCompactTrace` (pigosat.go): same guard structure as
`WriteClausalCore`, invoking `picosat_write_compact_trace`. -/
def WriteCompactTrace (p : Pigosat) : Except String Unit × Bool :=
  if p.engine.res ≠ Unsatisfiable then
    (Except.error "expected to be in Unsatisfiable state", false)
  else (Except.ok (), true)

/-- `Pigosat.WriteExtendedTrace` (pigosat.go): same guard structure as
`WriteClausalCore`, invoking `picosat_write_extended_trace`. -/
def WriteExtendedTrace (p : Pigosat) : Except String Unit × Bool :=
  if p.engine.res ≠ Unsatisfiable then
    (Except.error "expected to be in Unsatisfiable state", false)
  else (Except.ok (), true)

/-- The literal array `blocksol` builds: `make([]C.int, n+1)` is all
zeros; positions 0..n-1 get the negation of variable `i = j+1`'s
assignment (`-i` when `sol[i]`, else `i`); position n stays 0 as the
terminator. -/
def blockClauseArr (n : Nat) (sol : List Bool) : List Int :=
  (List.range n).map
    (fun j => if sol.getD (j + 1) false then -((j + 1 : Nat) : Int)
              else ((j + 1 : Nat) : Int)) ++ [0]

/-- `Pigosat.blocksol` (pigosat.go): build the inverse clause of the
solution, clear `couldHaveFailedAssumptions`, and forward it with
`picosat_add_lits`.  A blocking-clause addition is formula ingestion,
so it also closes the spec's assumption-validity window. -/
def blocksol (p : Pigosat) (sol : List Bool) : Pigosat × List CCall :=
  let arr := blockClauseArr p.engine.vars sol
  ({ p with couldHaveFailedAssumptions := false, validWindow := false,
            engine := p.engine.engineAddLits arr },
   [CCall.addLits arr])

/-- `Pigosat.BlockSolution` (pigosat.go): a length-mismatch error when
`len(solution) != picosat_variables + 1` (the session and engine are
untouched and no engine call is made); otherwise `blocksol` runs and
the call succeeds. -/
def BlockSolution (p : Pigosat) (sol : List Bool) :
    Pigosat × Except String Unit × List CCall :=
  if sol.length ≠ p.engine.vars + 1 then
    (p, Except.error "solution length mismatch", [])
  else
    let r := blocksol p sol
    (r.1, Except.ok (), r.2)

/-- The bisection loop of `Minimize` (minimize.go): while `hi > lo`,
probe `k := lo + (hi-lo)/2`; a `Satisfiable` probe lowers `hi` to `k`,
any other status raises `lo` to `k+1` and records that the final value
is provably optimal.  Returns the final `hi` and the `optimal` flag. -/
def minimizeLoop (feas : Int → Int) (lo hi : Int) (optimal : Bool) :
    Int × Bool :=
  if lo < hi then
    let k := lo + (hi - lo) / 2
    if feas k = Satisfiable then minimizeLoop feas lo k optimal
    else minimizeLoop feas (k + 1) hi true
  else (hi, optimal)
termination_by (hi - lo).toNat
decreasing_by all_goals omega

/-- `Minimize` (minimize.go): panics (`none`) when
`m.UpperBound() < m.LowerBound()`; returns `(hi, false, false)` when
`IsFeasible(hi)` is not `Satisfiable`; otherwise bisects.  The
`Minimizer` is modelled by its bounds `lo`, `hi` and the status
component of `IsFeasible` (`feas`); `RecordSolution` is a fire-and-
forget side effect with no influence on the returned values and is not
modelled.  Result: `(min, optimal, feasible)`. -/
def Minimize (lo hi : Int) (feas : Int → Int) :
    Option (Int × Bool × Bool) :=
  if hi < lo then none
  else if feas hi ≠ Satisfiable then some (hi, false, false)
  else
    let r := minimizeLoop feas lo hi false
    some (r.1, r.2, true)

/-! ## Helper lemmas -/

theorem takeWhile_append_stop (q : Int → Bool) (l : List Int)
    (h : ∀ x ∈ l, q x = true) (z : Int) (hz : q z = false) :
    (l ++ [z]).takeWhile q = l := by
  induction l with
  | nil => simp [List.takeWhile, hz]
  | cons a t ih =>
    have ha : q a = true := h a (by simp)
    simp only [List.cons_append, List.takeWhile_cons, ha, if_true]
    rw [ih (fun x hx => h x (by simp [hx]))]

theorem takeWhile_of_all (q : Int → Bool) (l : List Int)
    (h : ∀ x ∈ l, q x = true) : l.takeWhile q = l := by
  induction l with
  | nil => rfl
  | cons a t ih =>
    have ha : q a = true := h a (by simp)
    simp only [List.takeWhile_cons, ha, if_true]
    rw [ih (fun x hx => h x (by simp [hx]))]

theorem addClausesLoop_trace (cs : List (List Int)) : ∀ p : Pigosat,
    (addClausesLoop p cs).2 = cs.map (fun c =>
      if c.length = 0 then CCall.add 0
      else CCall.addLits (if c.getLastD 0 != 0 then c ++ [0] else c)) := by
  induction cs with
  | nil => intro p; rfl
  | cons c rest ih =>
    intro p
    by_cases hc : c.length = 0
    · simp only [addClausesLoop, hc, if_true, List.map_cons, if_pos hc]
      rw [ih]
    · simp only [addClausesLoop, hc, if_false, List.map_cons, if_neg hc]
      rw [ih]

theorem takeWhile_append_zero (c : List Int) :
    (c ++ [0]).takeWhile (fun l => l != 0) = c.takeWhile (fun l => l != 0) := by
  induction c with
  | nil => simp [List.takeWhile]
  | cons a t ih =>
    by_cases haz : (a != 0) = true
    · simp only [List.cons_append, List.takeWhile_cons, haz, if_true]
      rw [ih]
    · have haz0 : (a != 0) = false := by
        cases hb : (a != 0)
        · rfl
        · exact absurd hb haz
      simp [List.takeWhile_cons, haz0]

theorem addClausesLoop_clauses (cs : List (List Int)) : ∀ p : Pigosat,
    (addClausesLoop p cs).1.engine.clauses
      = p.engine.clauses ++ cs.map (fun c => c.takeWhile (fun l => l != 0)) := by
  induction cs with
  | nil => intro p; simp [addClausesLoop]
  | cons c rest ih =>
    intro p
    by_cases hc : c.length = 0
    · have hce : c = [] := List.length_eq_zero.mp hc
      simp only [addClausesLoop, hc, if_true, List.map_cons]
      rw [ih]
      simp [PicoState.engineAdd0, hce, List.append_assoc]
    · simp only [addClausesLoop, hc, if_false, List.map_cons]
      rw [ih]
      simp only [PicoState.engineAddLits]
      rw [List.append_assoc]
      congr 1
      by_cases hlast : (c.getLastD 0 != 0) = true
      · simp only [hlast, if_true, takeWhile_append_zero]
        rfl
      · have hlast0 : (c.getLastD 0 != 0) = false := by
          cases hb : (c.getLastD 0 != 0)
          · rfl
          · exact absurd hb hlast
        simp only [hlast0, if_false]
        rfl

theorem formulaSat_of_mem_empty (σ : Nat → Bool) (f : List (List Int))
    (h : [] ∈ f) : formulaSat σ f = false := by
  simp only [formulaSat]
  rw [List.all_eq_false]
  exact ⟨[], h, by simp [clauseSat]⟩

/-! ## Claim theorems -/

/-- C6: For every formula passed to `AddClauses`, each empty clause
forwards exactly one terminator (`picosat_add(p, 0)`), which makes the
ingested formula unsatisfiable for every assignment; each non-empty
clause is forwarded whole via `picosat_add_lits`, with a terminator
appended exactly when the clause's last element is not already 0.
`AddClauses` is a total function of the live session (it cannot fail
except for the session-state guard, which only concerns deleted or
uninitialized sessions). -/
theorem addClauses_forwarding (p : Pigosat) (cs : List (List Int)) :
    (AddClauses p cs).2 = cs.map (fun c =>
      if c.length = 0 then CCall.add 0
      else CCall.addLits (if c.getLastD 0 != 0 then c ++ [0] else c))
    ∧ (∀ σ : Nat → Bool, [] ∈ cs →
        formulaSat σ ((AddClauses p cs).1.engine.clauses) = false) := by
  constructor
  · exact addClausesLoop_trace cs p
  · intro σ hmem
    apply formulaSat_of_mem_empty
    rw [AddClauses, addClausesLoop_clauses]
    refine List.mem_append.mpr (Or.inr ?_)
    exact List.mem_map.mpr ⟨[], hmem, rfl⟩

/-- C6 witness: the concrete formula `[[1, -5, 4], []]` forwards the
literals of its first clause plus a terminator, forwards exactly one
terminator for the empty clause, and the resulting formula is
unsatisfiable under the all-true assignment. -/
theorem addClauses_forwarding_witness :
    (AddClauses (init false) [[1, -5, 4], []]).2
      = [CCall.addLits [1, -5, 4, 0], CCall.add 0]
    ∧ formulaSat (fun _ => true)
        ((AddClauses (init false) [[1, -5, 4], []]).1.engine.clauses) = false := by
  have h := addClauses_forwarding (init false) [[1, -5, 4], []]
  exact ⟨by rw [h.1]; rfl,
         h.2 (fun _ => true) (by simp)⟩

/-- C5: `Solve` never adds a clause itself: whenever it returns (in any
of the `Satisfiable`, `Unsatisfiable` or `Unknown` cases), the engine's
clause list — and hence `AddedOriginalClauses` — is exactly what it was
before the call.  Blocking a found solution happens only through an
explicit `BlockSolution` call. -/
theorem solve_preserves_clauses (p : Pigosat) (satRes : Int) (d : Int → Int)
    (p2 : Pigosat) (st : Int) (sol : Option (List Bool))
    (h : Solve p satRes d = some (p2, st, sol)) :
    p2.engine.clauses = p.engine.clauses
    ∧ AddedOriginalClauses p2 = AddedOriginalClauses p := by
  have hcl : p2.engine.clauses = p.engine.clauses := by
    by_cases h20 : satRes = Unsatisfiable
    · simp only [Solve, if_pos h20, Option.some.injEq, Prod.mk.injEq] at h
      obtain ⟨hp, -, -⟩ := h
      rw [← hp]
    · by_cases h0 : satRes = Unknown
      · simp only [Solve, if_neg h20, if_pos h0, Option.some.injEq,
          Prod.mk.injEq] at h
        obtain ⟨hp, -, -⟩ := h
        rw [← hp]
      · by_cases h10 : satRes = Satisfiable
        · have hne : ¬ satRes ≠ Satisfiable := fun hh => hh h10
          simp only [Solve, if_neg h20, if_neg h0, if_neg hne] at h
          cases hb : buildSolution d p.engine.vars with
          | none => rw [hb] at h; cases h
          | some s =>
            rw [hb] at h
            simp only [Option.some.injEq, Prod.mk.injEq] at h
            obtain ⟨hp, -, -⟩ := h
            rw [← hp]
        · have hne : satRes ≠ Satisfiable := h10
          simp only [Solve, if_neg h20, if_neg h0, if_pos hne] at h
          cases h
  exact ⟨hcl, by simp [AddedOriginalClauses, hcl]⟩

/-- C5 witness: solving (with an unknown engine result) leaves the
clause count of a concrete two-clause session unchanged. -/
theorem solve_preserves_clauses_witness :
    AddedOriginalClauses
        ((Solve ((AddClauses (init false) [[1], [-1]]).1) 0
            (fun _ => 1)).getD (init false, 0, none)).1
      = AddedOriginalClauses ((AddClauses (init false) [[1], [-1]]).1) :=
  (solve_preserves_clauses ((AddClauses (init false) [[1], [-1]]).1) 0
    (fun _ => 1) _ _ _ rfl).2

/-- C4: `BlockSolution` on a solution of the wrong length returns a
length-mismatch error, leaves the session (formula and clause count)
untouched and makes no engine call; on a solution of the right length
it succeeds and appends exactly one clause, the negation of every
assigned literal (literal `i` negated to `-i` when variable `i` is
assigned true, `-i` negated to `i` otherwise). -/
theorem blockSolution_spec (p : Pigosat) (sol : List Bool) :
    (sol.length ≠ Variables p + 1 →
      BlockSolution p sol = (p, Except.error "solution length mismatch", []))
    ∧ (sol.length = Variables p + 1 →
      (BlockSolution p sol).2.1 = Except.ok ()
      ∧ (BlockSolution p sol).1.engine.clauses
          = p.engine.clauses ++ [(List.range (Variables p)).map
              (fun j => if sol.getD (j + 1) false then -((j + 1 : Nat) : Int)
                        else ((j + 1 : Nat) : Int))]
      ∧ AddedOriginalClauses (BlockSolution p sol).1
          = AddedOriginalClauses p + 1) := by
  have hnz : ∀ x ∈ (List.range (Variables p)).map
      (fun j => if sol.getD (j + 1) false then -((j + 1 : Nat) : Int)
                else ((j + 1 : Nat) : Int)), (x != 0) = true := by
    intro x hx
    rcases List.mem_map.mp hx with ⟨j, -, rfl⟩
    by_cases hs : sol.getD (j + 1) false = true
    · rw [if_pos hs]
      simp only [bne_iff_ne, ne_eq, neg_eq_zero]
      omega
    · rw [if_neg hs]
      simp only [bne_iff_ne, ne_eq]
      omega
  have harr : (blockClauseArr (Variables p) sol).takeWhile (fun l => l != 0)
      = (List.range (Variables p)).map
          (fun j => if sol.getD (j + 1) false then -((j + 1 : Nat) : Int)
                    else ((j + 1 : Nat) : Int)) :=
    takeWhile_append_stop _ _ hnz 0 (by simp)
  constructor
  · intro h
    simp only [BlockSolution, Variables] at h ⊢
    rw [if_pos h]
  · intro h
    have hn : ¬ sol.length ≠ p.engine.vars + 1 := by
      simp only [Variables] at h; omega
    refine ⟨?_, ?_, ?_⟩
    · simp [BlockSolution, if_neg hn]
    · simp only [BlockSolution, if_neg hn, blocksol, PicoState.engineAddLits]
      rw [show p.engine.vars = Variables p from rfl, harr]
    · simp only [AddedOriginalClauses, BlockSolution, if_neg hn, blocksol,
        PicoState.engineAddLits]
      simp

/-- C4 witness: on a 1-variable session, a 3-element solution is
rejected with no change, and the 2-element solution `[false, true]` is
blocked by appending the single clause `[-1]`. -/
theorem blockSolution_spec_witness :
    BlockSolution ((AddClauses (init false) [[1]]).1) [false, true, true]
        = ((AddClauses (init false) [[1]]).1,
           Except.error "solution length mismatch", [])
    ∧ (BlockSolution ((AddClauses (init false) [[1]]).1) [false, true]).1.engine.clauses
        = [[1], [-1]] := by
  constructor
  · exact (blockSolution_spec ((AddClauses (init false) [[1]]).1)
      [false, true, true]).1 (by decide)
  · have h := (blockSolution_spec ((AddClauses (init false) [[1]]).1)
      [false, true]).2 (by decide)
    rw [h.2.1]
    rfl

theorem derefVals_length (d : Int → Int) :
    ∀ (k i : Nat) (bs : List Bool), derefVals d i k = some bs → bs.length = k := by
  intro k
  induction k with
  | zero =>
    intro i bs h
    simp only [derefVals, Option.some.injEq] at h
    rw [← h]
    rfl
  | succ k ih =>
    intro i bs h
    simp only [derefVals] at h
    split_ifs at h
    · rcases Option.map_eq_some'.mp h with ⟨bs0, hbs0, rfl⟩
      simp [ih (i + 1) bs0 hbs0]
    · rcases Option.map_eq_some'.mp h with ⟨bs0, hbs0, rfl⟩
      simp [ih (i + 1) bs0 hbs0]

theorem derefVals_getD (d : Int → Int) :
    ∀ (k i : Nat) (bs : List Bool) (j : Nat), derefVals d i k = some bs →
      j < k → bs.getD j false = decide (0 < d (((i + j : Nat) : Int))) := by
  intro k
  induction k with
  | zero => intro i bs j _ hj; omega
  | succ k ih =>
    intro i bs j h hj
    simp only [derefVals] at h
    split_ifs at h with h1 h2
    · rcases Option.map_eq_some'.mp h with ⟨bs0, hbs0, rfl⟩
      cases j with
      | zero => simp [List.getD_cons_zero, h1]
      | succ jj =>
        rw [List.getD_cons_succ, ih (i + 1) bs0 jj hbs0 (by omega),
          show i + 1 + jj = i + (jj + 1) from by omega]
    · rcases Option.map_eq_some'.mp h with ⟨bs0, hbs0, rfl⟩
      cases j with
      | zero =>
        have : ¬ (0 : Int) < d i := h1
        simp [List.getD_cons_zero, this]
      | succ jj =>
        rw [List.getD_cons_succ, ih (i + 1) bs0 jj hbs0 (by omega),
          show i + 1 + jj = i + (jj + 1) from by omega]

theorem derefVals_none_of_zero (d : Int → Int) :
    ∀ (k i j : Nat), j < k → d (((i + j : Nat) : Int)) = 0 →
      derefVals d i k = none := by
  intro k
  induction k with
  | zero => intro i j hj; omega
  | succ k ih =>
    intro i j hj hz
    cases j with
    | zero =>
      have hz0 : d i = 0 := by simpa using hz
      simp [derefVals, hz0]
    | succ jj =>
      have hz1 : d (((i + 1 + jj : Nat) : Int)) = 0 := by
        rw [show i + 1 + jj = i + (jj + 1) from by omega]
        exact hz
      have hrec : derefVals d (i + 1) k = none := ih (i + 1) jj (by omega) hz1
      simp only [derefVals, hrec, Option.map_none']
      split_ifs <;> rfl

/-- C1: whenever `Solve` returns (does not panic), the returned status
is `Satisfiable`, `Unsatisfiable` or `Unknown`; the solution is present
exactly when the status is `Satisfiable`; a present solution has length
`Variables + 1`, its index-0 entry is `false`, and for every variable
`1 ≤ i ≤ Variables` its entry is `true` exactly when `picosat_deref`
of `i` is positive.  A deref result of 0 for any variable makes `Solve`
panic instead of returning. -/
theorem solve_solution_spec :
    (∀ (p : Pigosat) (satRes : Int) (d : Int → Int) (p2 : Pigosat) (st : Int)
        (sol : Option (List Bool)),
      Solve p satRes d = some (p2, st, sol) →
        (st = Satisfiable ∨ st = Unsatisfiable ∨ st = Unknown)
        ∧ (sol.isSome ↔ st = Satisfiable)
        ∧ (∀ s, sol = some s →
            s.length = Variables p + 1
            ∧ s.getD 0 true = false
            ∧ (∀ i : Nat, 1 ≤ i → i ≤ Variables p →
                s.getD i false = decide (0 < d i))))
    ∧ (∀ (p : Pigosat) (d : Int → Int) (i : Nat), 1 ≤ i → i ≤ Variables p →
        d i = 0 → Solve p Satisfiable d = none) := by
  constructor
  · intro p satRes d p2 st sol h
    by_cases h20 : satRes = Unsatisfiable
    · simp only [Solve, if_pos h20, Option.some.injEq, Prod.mk.injEq] at h
      obtain ⟨-, hst, hsol⟩ := h
      refine ⟨Or.inr (Or.inl (hst ▸ h20)), ?_, ?_⟩
      · rw [← hsol, ← hst, h20]
        simp [Satisfiable, Unsatisfiable]
      · intro s hs
        rw [← hsol] at hs
        cases hs
    · by_cases h0 : satRes = Unknown
      · simp only [Solve, if_neg h20, if_pos h0, Option.some.injEq,
          Prod.mk.injEq] at h
        obtain ⟨-, hst, hsol⟩ := h
        refine ⟨Or.inr (Or.inr (hst ▸ h0)), ?_, ?_⟩
        · rw [← hsol, ← hst, h0]
          simp [Satisfiable, Unknown]
        · intro s hs
          rw [← hsol] at hs
          cases hs
      · by_cases h10 : satRes = Satisfiable
        · have hne : ¬ satRes ≠ Satisfiable := fun hh => hh h10
          simp only [Solve, if_neg h20, if_neg h0, if_neg hne] at h
          cases hb : buildSolution d p.engine.vars with
          | none => rw [hb] at h; cases h
          | some s0 =>
            rw [hb] at h
            simp only [Option.some.injEq, Prod.mk.injEq] at h
            obtain ⟨-, hst, hsol⟩ := h
            rcases Option.map_eq_some'.mp hb with ⟨bs, hbs, rfl⟩
            refine ⟨Or.inl (hst ▸ h10), ?_, ?_⟩
            · rw [← hsol, ← hst, h10]
              simp
            · intro s hs
              rw [← hsol] at hs
              cases hs
              refine ⟨?_, rfl, ?_⟩
              · have := derefVals_length d p.engine.vars 1 bs hbs
                simp [Variables, this]
              · intro i h1 h2
                obtain ⟨j, rfl⟩ : ∃ j, i = j + 1 := ⟨i - 1, by omega⟩
                rw [List.getD_cons_succ,
                  derefVals_getD d p.engine.vars 1 bs j hbs
                    (by simp only [Variables] at h2; omega),
                  show 1 + j = j + 1 from by omega]
        · have hne : satRes ≠ Satisfiable := h10
          simp only [Solve, if_neg h20, if_neg h0, if_pos hne] at h
          cases h
  · intro p d i h1 h2 hz
    have h20 : ¬ Satisfiable = Unsatisfiable := by decide
    have h0 : ¬ Satisfiable = Unknown := by decide
    have hne : ¬ Satisfiable ≠ Satisfiable := fun hh => hh rfl
    have hnone : derefVals d 1 p.engine.vars = none := by
      refine derefVals_none_of_zero d p.engine.vars 1 (i - 1) ?_ ?_
      · simp only [Variables] at h2; omega
      · rw [show 1 + (i - 1) = i from by omega]
        exact hz
    simp [Solve, if_neg h20, if_neg h0, if_neg hne, buildSolution, hnone]

/-- C1 witness: a concrete solve on a two-variable session with engine
result `Satisfiable` and derefs `+1, -1` yields the solution
`[false, true, false]` of length `Variables + 1`, and a deref of 0 for
variable 1 makes `Solve` panic. -/
theorem solve_solution_spec_witness :
    [false, true, false].length
        = Variables ((AddClauses (init false) [[1, -2]]).1) + 1
    ∧ Solve ((AddClauses (init false) [[1, -2]]).1) Satisfiable (fun _ => 0)
        = none := by
  have hsome : Solve ((AddClauses (init false) [[1, -2]]).1) Satisfiable
      (fun i => if i = 1 then 1 else -1)
      = some ({ engine := { vars := 2, clauses := [[1, -2]],
                            res := Satisfiable },
                couldHaveFailedAssumptions := false, traceEnabled := false,
                validWindow := false },
              Satisfiable, some [false, true, false]) := by decide
  constructor
  · exact ((solve_solution_spec.1 ((AddClauses (init false) [[1, -2]]).1)
      Satisfiable (fun i => if i = 1 then 1 else -1) _ _ _ hsome).2.2
      [false, true, false] rfl).1
  · exact solve_solution_spec.2 ((AddClauses (init false) [[1, -2]]).1)
      (fun _ => 0) 1 (by decide) (by decide) rfl

/-- C7 counterexample state: a session created without `EnableTrace`
whose last solve returned `Unsatisfiable` — reached by ingesting
`[[1], [-1]]` into a fresh untraced session and solving. -/
def pNoTraceUnsat : Pigosat :=
  { engine := { vars := 1, clauses := [[1], [-1]], res := Unsatisfiable }
    couldHaveFailedAssumptions := true
    traceEnabled := false
    validWindow := true }

/-- C7 counterexample: the claim says the write methods "fail
immediately without engaging the engine whenever the session was not
created with tracing enabled".  In the reachable state `pNoTraceUnsat`
(no `EnableTrace`, last solve `Unsatisfiable`) all three write methods
invoke the engine's write operation and report success: the code
performs no `EnableTrace` check at all. -/
theorem write_guard_counterexample :
    Solve ((AddClauses (init false) [[1], [-1]]).1) Unsatisfiable
        (fun _ => 1) = some (pNoTraceUnsat, Unsatisfiable, none)
    ∧ pNoTraceUnsat.traceEnabled = false
    ∧ WriteClausalCore pNoTraceUnsat = (Except.ok (), true)
    ∧ WriteCompactTrace pNoTraceUnsat = (Except.ok (), true)
    ∧ WriteExtendedTrace pNoTraceUnsat = (Except.ok (), true) := by
  refine ⟨by decide, rfl, rfl, rfl, rfl⟩

/-- C7 (amended): `WriteClausalCore`, `WriteCompactTrace` and
`WriteExtendedTrace` each return an error immediately, without invoking
the engine's write operation, whenever the last solve outcome is not
`Unsatisfiable`; and each invokes the engine's write operation exactly
when the last solve outcome is `Unsatisfiable`, regardless of whether
the session was created with `EnableTrace` (the methods perform no
tracing check; `EnableTrace` is a documented caller obligation). -/
theorem write_methods_guard (p : Pigosat) :
    (p.engine.res ≠ Unsatisfiable →
      WriteClausalCore p
          = (Except.error "expected to be in Unsatisfiable state", false)
      ∧ WriteCompactTrace p
          = (Except.error "expected to be in Unsatisfiable state", false)
      ∧ WriteExtendedTrace p
          = (Except.error "expected to be in Unsatisfiable state", false))
    ∧ ((WriteClausalCore p).2 = true ↔ p.engine.res = Unsatisfiable)
    ∧ ((WriteCompactTrace p).2 = true ↔ p.engine.res = Unsatisfiable)
    ∧ ((WriteExtendedTrace p).2 = true ↔ p.engine.res = Unsatisfiable) := by
  by_cases h : p.engine.res = Unsatisfiable
  · refine ⟨fun hh => absurd h hh, ?_, ?_, ?_⟩ <;>
      simp [WriteClausalCore, WriteCompactTrace, WriteExtendedTrace, h]
  · refine ⟨fun _ => ?_, ?_, ?_, ?_⟩ <;>
      simp [WriteClausalCore, WriteCompactTrace, WriteExtendedTrace, h]

/-- C7 witness: on a fresh untraced session (`res = Unknown`) all three
write methods return the guard error without touching the engine. -/
theorem write_methods_guard_witness :
    WriteClausalCore (init false)
        = (Except.error "expected to be in Unsatisfiable state", false)
    ∧ WriteCompactTrace (init false)
        = (Except.error "expected to be in Unsatisfiable state", false)
    ∧ WriteExtendedTrace (init false)
        = (Except.error "expected to be in Unsatisfiable state", false) :=
  (write_methods_guard (init false)).1 (by decide)

theorem litLoop_none (mem : Nat → Int) (maxLen : Nat) :
    ∀ (n i : Nat) (acc : List Int), maxLen + 1 - i ≤ n → i ≤ maxLen + 1 →
      (∀ k, i ≤ k → k ≤ maxLen + 1 → mem k ≠ 0) →
      litLoop mem maxLen i acc = none := by
  intro n
  induction n with
  | zero =>
    intro i acc hn hi hk
    rw [litLoop, if_neg (hk i le_rfl hi), if_pos (show i > maxLen from by omega)]
  | succ n ih =>
    intro i acc hn hi hk
    rw [litLoop, if_neg (hk i le_rfl hi)]
    by_cases hgt : i > maxLen
    · rw [if_pos hgt]
    · rw [if_neg hgt]
      exact ih (i + 1) _ (by omega) (by omega)
        (fun k hk1 hk2 => hk k (by omega) hk2)

theorem litLoop_some (mem : Nat → Int) (maxLen j : Nat) (hj : j ≤ maxLen + 1)
    (hz : mem j = 0) :
    ∀ (n i : Nat) (acc : List Int), j - i ≤ n → i ≤ j →
      (∀ k, i ≤ k → k < j → mem k ≠ 0) →
      litLoop mem maxLen i acc
        = some (acc ++ (List.range' i (j - i)).map mem) := by
  intro n
  induction n with
  | zero =>
    intro i acc hn hij hk
    have hie : i = j := by omega
    subst hie
    rw [litLoop, if_pos hz]
    simp [show i - i = 0 from by omega]
  | succ n ih =>
    intro i acc hn hij hk
    by_cases hie : i = j
    · subst hie
      rw [litLoop, if_pos hz]
      simp [show i - i = 0 from by omega]
    · have hlt : i < j := by omega
      have hmi : mem i ≠ 0 := hk i le_rfl hlt
      rw [litLoop, if_neg hmi, if_neg (show ¬ i > maxLen from by omega),
        ih (i + 1) (acc ++ [mem i]) (by omega) (by omega)
          (fun k h1 h2 => hk k (by omega) h2)]
      have hr : j - i = (j - (i + 1)) + 1 := by omega
      rw [hr, List.range'_succ]
      simp

/-- C8 counterexample memory: the C array `{1, 2, 3, 0, 0, ...}`. -/
def mem123 : Nat → Int := fun i => if i < 3 then (i : Int) + 1 else 0

/-- C8 counterexample: with `maxLen = 2`, the array `{1, 2, 3, 0}` has
no 0 terminator within its first `maxLen + 1 = 3` entries, yet
`litArrayToSlice` returns `[1, 2, 3]` instead of panicking: the loop
panics only when it meets a nonzero entry with `maxLen + 1` literals
already collected, so a terminator at index `maxLen + 1` is still
accepted. -/
theorem litArrayToSlice_counterexample :
    (∀ i : Nat, i ≤ 2 → mem123 i ≠ 0)
    ∧ litArrayToSlice (some mem123) 2 = some [1, 2, 3] := by
  constructor
  · decide
  · have h := litLoop_some mem123 2 3 (by omega) (by decide) 3 0 []
      (by omega) (by omega) (by decide)
    rw [litArrayToSlice, h]
    rfl

/-- C8 (amended): `litArrayToSlice` panics on a nil pointer; if the
first 0 terminator of the array occurs at an index `j ≤ maxLen + 1`
(i.e. within the first `maxLen + 2` entries), it returns exactly the
`j` literals preceding that first 0, in order; and if the first
`maxLen + 2` entries are all nonzero it panics rather than silently
truncating. -/
theorem litArrayToSlice_spec (mem : Nat → Int) (maxLen : Nat) :
    litArrayToSlice none maxLen = none
    ∧ (∀ j : Nat, j ≤ maxLen + 1 → mem j = 0 →
        (∀ k, k < j → mem k ≠ 0) →
        litArrayToSlice (some mem) maxLen = some ((List.range' 0 j).map mem))
    ∧ ((∀ k, k ≤ maxLen + 1 → mem k ≠ 0) →
        litArrayToSlice (some mem) maxLen = none) := by
  refine ⟨rfl, ?_, ?_⟩
  · intro j hj hz hk
    have h := litLoop_some mem maxLen j hj hz j 0 [] (by omega) (by omega)
      (fun k _ h2 => hk k h2)
    rw [litArrayToSlice, h]
    simp
  · intro hk
    exact litLoop_none mem maxLen (maxLen + 1) 0 [] (by omega) (by omega)
      (fun k _ h2 => hk k h2)

/-- C8 witness: the array `{7, 0, ...}` with `maxLen = 1` yields `[7]`;
an all-ones array with `maxLen = 1` panics; a nil pointer panics. -/
theorem litArrayToSlice_spec_witness :
    litArrayToSlice (some (fun i => if i = 0 then 7 else 0)) 1 = some [7]
    ∧ litArrayToSlice (some (fun _ => 1)) 1 = none
    ∧ litArrayToSlice none 1 = none := by
  refine ⟨?_, ?_, ?_⟩
  · have h := (litArrayToSlice_spec (fun i => if i = 0 then 7 else 0) 1).2.1
      1 (by omega) (by decide) (by decide)
    rw [h]
    rfl
  · exact (litArrayToSlice_spec (fun _ => 1) 1).2.2 (fun k _ => by decide)
  · exact (litArrayToSlice_spec (fun _ => 1) 1).1

/-- C10: `FailedAssumption` applied to the zero literal returns `false`
and never invokes the engine's `picosat_failed_assumption` query, in
every session state — including one whose last solve outcome is
`Unsatisfiable` with assumptions still valid. -/
theorem failedAssumption_zero (p : Pigosat) (engineFailed : Int → Bool) :
    FailedAssumption p engineFailed 0 = (false, false) := by
  simp [FailedAssumption]

/-- The session of the TestAssumptionsNoCrash scenario right after a
`Solve` that returned `Unsatisfiable` (formula ingested, literals 3, 4,
5 assumed, engine answered `Unsatisfiable`). -/
def pAfterUnsat : Pigosat :=
  { engine := { vars := 5, clauses := [[1, -5, 4], [-1, 5, 3, 4], [-3, -4]],
                res := Unsatisfiable }
    couldHaveFailedAssumptions := true
    traceEnabled := false
    validWindow := true }

/-- C2 (code bug): after an `Unsatisfiable` solve, a further
`Assume(3)` closes the spec's assumption-validity window
(`validWindow = false`) while the engine keeps reporting
`Unsatisfiable` through `picosat_res` (exactly the situation
TestAssumptionsNoCrash exercises).  The claim — and the code's own
guard comment — require `FailedAssumption`/`FailedAssumptions` to
short-circuit without an engine query; the implemented guard tests
`p.res() != Unsatisfiable` only, so both methods do invoke the engine
query (second component `true`), which the code documents as
SIGABRT-ing the process. -/
theorem failedAssumption_guard_bug :
    Solve (Assume (Assume (Assume
        ((AddClauses (init false) [[1, -5, 4], [-1, 5, 3, 4], [-3, -4]]).1)
        3).1 4).1 5).1 Unsatisfiable (fun _ => 1)
      = some (pAfterUnsat, Unsatisfiable, none)
    ∧ (Assume pAfterUnsat 3).1.validWindow = false
    ∧ (Assume pAfterUnsat 3).1.engine.res = Unsatisfiable
    ∧ (FailedAssumption (Assume pAfterUnsat 3).1 (fun _ => true) 3).2 = true
    ∧ (FailedAssumptions (Assume pAfterUnsat 3).1 (some (fun _ => 0))).2
        = true := by
  refine ⟨by decide, rfl, rfl, rfl, rfl⟩

/-- C3 (code bug): the claim — and the `couldHaveFailedAssumptions`
field's own doc comment ("We reset it to false every time assumptions
become invalid") — says `Assume(lit)` always clears the flag.  In the
reachable state `pAfterUnsat` the flag is `true`, and the implemented
`Assume` does not touch it: after `Assume(17)` the flag is still
`true` even though the assumptions are no longer the solved set. -/
theorem assume_flag_not_cleared_bug :
    pAfterUnsat.couldHaveFailedAssumptions = true
    ∧ (Assume pAfterUnsat 17).1.couldHaveFailedAssumptions = true
    ∧ (Assume pAfterUnsat 17).1.validWindow = false := by
  exact ⟨rfl, rfl, rfl⟩

/-- The loop lemma behind C9: on a monotone feasibility predicate with
threshold `K` inside the current bracket, the bisection loop of
`Minimize` converges to exactly `K`, and the `optimal` flag ends up set
exactly when it started set or the loop ever took an infeasible probe
(which happens exactly when `lo < K`). -/
theorem minimizeLoop_threshold (K : Int) (feas : Int → Int)
    (hlt : ∀ k, k < K → feas k ≠ Satisfiable)
    (hge : ∀ k, K ≤ k → feas k = Satisfiable) :
    ∀ (n : Nat) (lo hi : Int) (optimal : Bool), (hi - lo).toNat ≤ n →
      lo ≤ K → K ≤ hi →
      minimizeLoop feas lo hi optimal = (K, optimal || decide (lo < K)) := by
  intro n
  induction n with
  | zero =>
    intro lo hi optimal hn h1 h2
    have he : lo = hi := by omega
    have hK : K = hi := by omega
    rw [minimizeLoop, if_neg (show ¬ lo < hi from by omega)]
    have hnK : ¬ lo < K := by omega
    rw [decide_eq_false hnK, Bool.or_false, hK]
  | succ n ih =>
    intro lo hi optimal hn h1 h2
    by_cases hlh : lo < hi
    · rw [minimizeLoop, if_pos hlh]
      have hk1 : lo ≤ lo + (hi - lo) / 2 := by omega
      have hk2 : lo + (hi - lo) / 2 < hi := by omega
      by_cases hfk : feas (lo + (hi - lo) / 2) = Satisfiable
      · rw [if_pos hfk]
        have hKk : K ≤ lo + (hi - lo) / 2 := by
          by_contra hc
          exact hlt _ (by omega) hfk
        exact ih lo (lo + (hi - lo) / 2) optimal (by omega) h1 hKk
      · rw [if_neg hfk]
        have hkK : lo + (hi - lo) / 2 < K := by
          by_contra hc
          exact hfk (hge _ (by omega))
        rw [ih (lo + (hi - lo) / 2 + 1) hi true (by omega) (by omega) h2]
        have : lo < K := by omega
        simp [this]
    · have he : lo = hi := by omega
      have hK : K = hi := by omega
      rw [minimizeLoop, if_neg hlh]
      have hnK : ¬ lo < K := by omega
      rw [decide_eq_false hnK, Bool.or_false, hK]

/-- C9: for a `Minimizer` whose feasibility status is monotone with
threshold `K` (not `Satisfiable` strictly below `K`, `Satisfiable` at
and above `K`): `Minimize` panics when the upper bound is below the
lower bound; when `K` exceeds the upper bound it returns
`(hi, optimal = false, feasible = false)`; and when
`lo ≤ K ≤ hi` it returns minimum exactly `K` with `feasible = true` and
`optimal = true` exactly when `K > lo`. -/
theorem minimize_spec (lo hi K : Int) (feas : Int → Int)
    (hlt : ∀ k, k < K → feas k ≠ Satisfiable)
    (hge : ∀ k, K ≤ k → feas k = Satisfiable) :
    (hi < lo → Minimize lo hi feas = none)
    ∧ (lo ≤ hi → hi < K → Minimize lo hi feas = some (hi, false, false))
    ∧ (lo ≤ K → K ≤ hi →
        Minimize lo hi feas = some (K, decide (lo < K), true)) := by
  refine ⟨?_, ?_, ?_⟩
  · intro h
    rw [Minimize, if_pos h]
  · intro h1 h2
    rw [Minimize, if_neg (show ¬ hi < lo from by omega),
      if_pos (hlt hi h2)]
  · intro h1 h2
    rw [Minimize, if_neg (show ¬ hi < lo from by omega)]
    have hfhi : feas hi = Satisfiable := hge hi h2
    rw [if_neg (show ¬ feas hi ≠ Satisfiable from fun hh => hh hfhi)]
    rw [minimizeLoop_threshold K feas hlt hge (hi - lo).toNat lo hi false
      le_rfl h1 h2]
    simp

/-- C9 witness: with bounds 0..5 and threshold 2, `Minimize` returns
`(2, optimal = true, feasible = true)`; with bounds 3..5 and threshold
7 it returns `(5, false, false)`; with bounds 5..3 it panics. -/
theorem minimize_spec_witness :
    Minimize 0 5 (fun k => if 2 ≤ k then Satisfiable else Unsatisfiable)
        = some (2, true, true)
    ∧ Minimize 3 5 (fun k => if 7 ≤ k then Satisfiable else Unsatisfiable)
        = some (5, false, false)
    ∧ Minimize 5 3 (fun k => if 2 ≤ k then Satisfiable else Unsatisfiable)
        = none := by
  have mono1 : ∀ k : Int, k < 2 →
      (fun k : Int => if 2 ≤ k then Satisfiable else Unsatisfiable) k
        ≠ Satisfiable := by
    intro k hk
    simp only [if_neg (show ¬ (2 : Int) ≤ k from by omega)]
    decide
  have mono2 : ∀ k : Int, 2 ≤ k →
      (fun k : Int => if 2 ≤ k then Satisfiable else Unsatisfiable) k
        = Satisfiable := by
    intro k hk
    simp only [if_pos hk]
  have mono3 : ∀ k : Int, k < 7 →
      (fun k : Int => if 7 ≤ k then Satisfiable else Unsatisfiable) k
        ≠ Satisfiable := by
    intro k hk
    simp only [if_neg (show ¬ (7 : Int) ≤ k from by omega)]
    decide
  have mono4 : ∀ k : Int, 7 ≤ k →
      (fun k : Int => if 7 ≤ k then Satisfiable else Unsatisfiable) k
        = Satisfiable := by
    intro k hk
    simp only [if_pos hk]
  refine ⟨?_, ?_, ?_⟩
  · have h := (minimize_spec 0 5 2 _ mono1 mono2).2.2 (by omega) (by omega)
    rw [h]
    rfl
  · exact (minimize_spec 3 5 7 _ mono3 mono4).2.1 (by omega) (by omega)
  · exact (minimize_spec 5 3 2 _ mono1 mono2).1 (by omega)

end PiGoSAT
